import Mathlib

/-!
Shallow embedding of `src/analyzer.py` ("fin-analyzer").

Numeric values are modelled as rationals (`ℚ`); the Python `None` sentinel is
`Option.none`.  Text processing is carried out on `List Char` (the `data` of a
`String`), which models Python strings character by character; lowercasing is
ASCII (all alias phrases and disclosure phrases are ASCII).  The Python `dict`
collecting extracted items is modelled as an insertion-ordered association
list in which updating an existing key keeps its position (`dictInsert`),
exactly the ordering semantics of a Python `dict`.
-/

/-- ASCII lowercasing of a character list, modelling `str.lower()` on the
ASCII alphabet used by the alias table and the scale phrases. -/
def lowerL (cs : List Char) : List Char := cs.map Char.toLower

/-- Strip leading and trailing whitespace, modelling `str.strip()`. -/
def trimL (cs : List Char) : List Char :=
  ((cs.dropWhile Char.isWhitespace).reverse.dropWhile Char.isWhitespace).reverse

/-- Split a character list at a separator character, modelling
`str.split(sep)` (used both for `text.splitlines()` on `\n` and for the
decimal point split inside float parsing). -/
def splitOnChar (sep : Char) : List Char → List (List Char)
  | [] => [[]]
  | c :: rest =>
    if c == sep then [] :: splitOnChar sep rest
    else
      match splitOnChar sep rest with
      | [] => [[c]]
      | g :: gs => (c :: g) :: gs

/-- Python's substring test `needle in hay` on strings, character-exact:
true iff `needle` occurs contiguously somewhere in `hay` (the empty needle
always occurs). -/
def containsSub (needle : List Char) : List Char → Bool
  | [] => needle.isEmpty
  | c :: rest => needle.isPrefixOf (c :: rest) || containsSub needle rest

/-- A digit or a comma: the character class `[\d,]` of `number_re`
(`analyzer.py` line 38), with `\d` the ASCII digits. -/
def isDigitOrComma (c : Char) : Bool := c.isDigit || c == ','

/-- Consume a single optional literal character (the `\(?`, `-?`, `\$?`, `\)?`
pieces of `number_re`): returns the consumed characters and the rest. -/
def consumeOpt (c : Char) (cs : List Char) : List Char × List Char :=
  match cs with
  | c' :: rest => if c' == c then ([c'], rest) else ([], cs)
  | [] => ([], cs)

/-- One attempted match of `number_re = \(?-?\$?[\d,]+(?:\.\d+)?\)?`
(`analyzer.py` line 38) at the head of `cs`.  The regex is deterministic
greedy (no backtracking is ever needed: each optional piece's character
cannot start the following piece), so maximal-munch per piece is faithful.
Returns the matched token and the remaining characters. -/
def tryMatchNumber (cs : List Char) : Option (List Char × List Char) :=
  let (p1, cs1) := consumeOpt '(' cs
  let (p2, cs2) := consumeOpt '-' cs1
  let (p3, cs3) := consumeOpt '$' cs2
  let ds := cs3.takeWhile isDigitOrComma
  let cs4 := cs3.dropWhile isDigitOrComma
  if ds.isEmpty then none
  else
    let (fr, cs5) :=
      match cs4 with
      | '.' :: d :: rest =>
        if d.isDigit then
          ('.' :: (d :: rest).takeWhile Char.isDigit, (d :: rest).dropWhile Char.isDigit)
        else ([], cs4)
      | _ => ([], cs4)
    let (p6, cs6) := consumeOpt ')' cs5
    some (p1 ++ p2 ++ p3 ++ ds ++ fr ++ p6, cs6)

/-- Left-to-right non-overlapping scan of `re.findall`, fuelled by the input
length (every successful match consumes at least one character — the `[\d,]+`
piece is nonempty — and a failed position advances by one, so `cs.length`
fuel always suffices). -/
def findallAux : Nat → List Char → List (List Char)
  | 0, _ => []
  | _ + 1, [] => []
  | fuel + 1, c :: rest =>
    match tryMatchNumber (c :: rest) with
    | some (tok, rest') => tok :: findallAux fuel rest'
    | none => findallAux fuel rest

/-- `number_re.findall` on a line (`analyzer.py` line 110). -/
def findall (cs : List Char) : List (List Char) := findallAux cs.length cs

/-- Value of a list of ASCII digits read in base 10. -/
def digitsToNat (cs : List Char) : Nat := cs.foldl (fun a c => 10 * a + (c.toNat - 48)) 0

/-- Python `float()` on an unsigned string over the residual alphabet
`{digit, '.', '-'}`: accepts digit strings with at most one decimal point and
at least one digit; anything else (an interior `'-'`, two dots, no digit)
raises in Python, i.e. yields `none` here.  Values are exact rationals. -/
def pyFloatCore (cs : List Char) : Option ℚ :=
  if cs.all (fun c => c.isDigit || c == '.') then
    match splitOnChar '.' cs with
    | [ds] => if ds.isEmpty then none else some (digitsToNat ds : ℚ)
    | [ip, fp] =>
      if ip.isEmpty && fp.isEmpty then none
      else some ((digitsToNat ip : ℚ) + (digitsToNat fp : ℚ) / (10 : ℚ) ^ fp.length)
    | _ => none
  else none

/-- Python `float()` including an optional single leading minus sign. -/
def pyFloat (cs : List Char) : Option ℚ :=
  match cs with
  | '-' :: rest => (pyFloatCore rest).map (fun v => -v)
  | _ => pyFloatCore cs

/-- The scale-independent part of `parse_number_str` (`analyzer.py` lines
40–63): strip, sentinel check, parenthesised-negative detection, removal of
`$`/`,`/space, en-dash to minus, restriction to `[\d\-.]`, degenerate check,
float parse, sign application.  The source computes this signed value `val`
and then returns `val * scale`; the factoring into `parseNumberCore` and the
final multiplication in `parseNumberStr` mirrors that last line. -/
def parseNumberCore (s : String) : Option ℚ :=
  let cs := trimL s.data
  if cs == [] || cs == "—".data || cs == "-".data || cs == "N/A".data ||
      cs == "na".data || cs == "n/a".data then none
  else
    let isParen := cs.head? == some '(' && cs.getLast? == some ')'
    let cs1 := if isParen then (cs.drop 1).dropLast else cs
    let cs2 := (cs1.filter (fun c => c != '$' && c != ',' && c != ' ')).map
      (fun c => if c == '–' then '-' else c)
    let cs3 := cs2.filter (fun c => c.isDigit || c == '-' || c == '.')
    if cs3 == [] || cs3 == ['.'] || cs3 == ['-'] then none
    else
      match pyFloat cs3 with
      | none => none
      | some v => some (if isParen then -v else v)

/-- `parse_number_str(s, scale)` (`analyzer.py` lines 40–63). -/
def parseNumberStr (s : String) (scale : ℚ) : Option ℚ :=
  (parseNumberCore s).map (fun v => v * scale)

/-- The alias table `ALIASES` (`analyzer.py` lines 65–80), in source order. -/
def ALIASES : List (String × List String) :=
  [ ("Revenue", ["revenue", "net sales", "sales", "turnover", "total revenue"]),
    ("Cost of Goods Sold", ["cost of goods sold", "cogs", "cost of sales", "cost of goods"]),
    ("Gross Profit", ["gross profit"]),
    ("Operating Income", ["operating income", "ebit", "operating profit"]),
    ("Net Income", ["net income", "profit for the year", "net profit", "profit (loss)", "profit attributable"]),
    ("Total Assets", ["total assets", "assets"]),
    ("Total Liabilities", ["total liabilities", "liabilities"]),
    ("Equity", ["equity", "total equity", "shareholders' equity"]),
    ("Cash and Equivalents", ["cash and cash equivalents", "cash at bank", "cash"]),
    ("Current Assets", ["current assets"]),
    ("Current Liabilities", ["current liabilities"]),
    ("Inventory", ["inventory", "inventories"]),
    ("Short Term Debt", ["current portion of long-term debt", "short-term borrowings", "short term debt"]),
    ("Long Term Debt", ["long-term debt", "long term debt", "long term borrowings"]) ]

/-- Insertion-ordered update of a Python `dict` modelled as an association
list: an existing key is updated in place (keeping its position), a new key
is appended at the end. -/
def dictInsert : List (String × ℚ) → String → ℚ → List (String × ℚ)
  | [], k, v => [(k, v)]
  | (k', v') :: rest, k, v =>
    if k' == k then (k', v) :: rest else (k', v') :: dictInsert rest k v

/-- `dict.get(k)` on the modelled dict. -/
def finGet (fin : List (String × ℚ)) (k : String) : Option ℚ :=
  (fin.find? (fun p => p.1 == k)).map Prod.snd

/-- The value a line offers: the rightmost `number_re` token on the line,
normalised (`raw = nums[-1]; val = parse_number_str(raw, scale)` in
`find_by_aliases`, guarded by `if nums:`). -/
def tokenValue (scale : ℚ) (nums : List (List Char)) : Option ℚ :=
  match nums.getLast? with
  | some raw => parseNumberStr (String.mk raw) scale
  | none => none

/-- Body of the innermost loop of `find_by_aliases` (`analyzer.py` lines
112–119): if phrase `ph` occurs in the lowered line, and the line has
numbers, and the rightmost one normalises, store it under `key`. -/
def applyPhrase (nums : List (List Char)) (scale : ℚ) (low : List Char)
    (res : List (String × ℚ)) (key : String) (ph : String) : List (String × ℚ) :=
  if containsSub ph.data low then
    match tokenValue scale nums with
    | some val => dictInsert res key val
    | none => res
  else res

/-- Processing of one line of `find_by_aliases`: compute the lowered line and
its `number_re` tokens once, then fold the alias table. -/
def processLine (scale : ℚ) (res : List (String × ℚ)) (ln : List Char) :
    List (String × ℚ) :=
  let low := lowerL ln
  let nums := findall ln
  ALIASES.foldl (fun r kp => kp.2.foldl (fun r2 ph => applyPhrase nums scale low r2 kp.1 ph) r) res

/-- The line list of `find_by_aliases`:
`[ln.strip() for ln in text.splitlines() if ln.strip()]`. -/
def linesOf (text : String) : List (List Char) :=
  ((splitOnChar '\n' text.data).map trimL).filter (fun l => !l.isEmpty)

/-- `find_by_aliases(text, scale)` (`analyzer.py` lines 105–120). -/
def findByAliases (text : String) (scale : ℚ) : List (String × ℚ) :=
  (linesOf text).foldl (processLine scale) []

/-- `detect_scale(text)` (`analyzer.py` lines 96–103). -/
def detectScale (text : String) : ℚ :=
  let low := lowerL text.data
  if containsSub "in thousands".data low || containsSub "(in thousands".data low ||
      containsSub "amounts in thousands".data low then 1000
  else if containsSub "in millions".data low || containsSub "(in millions".data low ||
      containsSub "amounts in millions".data low then 1000000
  else 1

/-- `safe_div(a, b)` (`analyzer.py` lines 131–139). -/
def safeDiv (a b : Option ℚ) : Option ℚ :=
  match a, b with
  | some x, some y => if y = 0 then none else some (x / y)
  | _, _ => none

/-- Python's `x or y` on an optional number: `None` and `0` are falsy, so the
right operand is taken exactly when `x` is `None` or `0`. -/
def pyOr (a b : Option ℚ) : Option ℚ :=
  match a with
  | some v => if v = 0 then b else some v
  | none => b

/-- The parenthesised fallback for gross profit in `compute_ratios` line 144:
`None if (fin.get("Revenue") is None or fin.get("Cost of Goods Sold") is None)
else fin["Revenue"] - fin["Cost of Goods Sold"]`. -/
def cogsFallback (fin : List (String × ℚ)) : Option ℚ :=
  match finGet fin "Revenue", finGet fin "Cost of Goods Sold" with
  | some r, some c => some (r - c)
  | _, _ => none

/-- The ratio dictionary built by `compute_ratios` (fixed key set). -/
structure RatioSet where
  gross_margin : Option ℚ
  operating_margin : Option ℚ
  net_margin : Option ℚ
  current_ratio : Option ℚ
  debt_to_equity : Option ℚ
  roe : Option ℚ
  roa : Option ℚ
  deriving DecidableEq

/-- `compute_ratios(fin)` (`analyzer.py` lines 141–152). -/
def computeRatios (fin : List (String × ℚ)) : RatioSet :=
  let rev := finGet fin "Revenue"
  let gross := pyOr (finGet fin "Gross Profit") (cogsFallback fin)
  { gross_margin := safeDiv gross rev
    operating_margin := safeDiv (finGet fin "Operating Income") rev
    net_margin := safeDiv (finGet fin "Net Income") rev
    current_ratio := safeDiv (finGet fin "Current Assets") (finGet fin "Current Liabilities")
    debt_to_equity := safeDiv (finGet fin "Total Liabilities") (finGet fin "Equity")
    roe := safeDiv (finGet fin "Net Income") (finGet fin "Equity")
    roa := safeDiv (finGet fin "Net Income") (finGet fin "Total Assets") }

/-- Flag texts of `flag_anomalies` (`analyzer.py` lines 154–164). -/
def liquidityFlag : String := "Current ratio < 1 — potential short-term liquidity concern"

/-- Flag text of the high-leverage rule. -/
def leverageFlag : String := "High debt-to-equity (>2) — leverage is high"

/-- Flag text of the reported-loss rule. -/
def lossFlag : String := "Net income negative — company reported a loss"

/-- Flag text of the negative-cash rule. -/
def negCashFlag : String := "Negative cash — check parsing errors"

/-- `flag_anomalies(fin, ratios)` (`analyzer.py` lines 154–164): four
independent appends in fixed order. -/
def flagAnomalies (fin : List (String × ℚ)) (ratios : RatioSet) : List String :=
  (match ratios.current_ratio with
   | some v => if v < 1 then [liquidityFlag] else []
   | none => []) ++
  (match ratios.debt_to_equity with
   | some v => if v > 2 then [leverageFlag] else []
   | none => []) ++
  (match finGet fin "Net Income" with
   | some v => if v < 0 then [lossFlag] else []
   | none => []) ++
  (match finGet fin "Cash and Equivalents" with
   | some v => if v < 0 then [negCashFlag] else []
   | none => [])

/-- The value a single line offers for a canonical item with alias list
`phrases`: the normalised rightmost `number_re` token, provided some phrase
occurs in the lowered line; `none` when no phrase matches, the line has no
numeric token, or the token fails to normalise. -/
def lineContrib (scale : ℚ) (phrases : List String) (ln : List Char) : Option ℚ :=
  if phrases.any (fun ph => containsSub ph.data (lowerL ln)) then
    tokenValue scale (findall ln)
  else none

/-- Claim-side predicate: the lowered document text contains the phrase
`in thousands` (which every thousands disclosure variant of `detect_scale`
contains as a substring). -/
def mentionsThousands (text : String) : Bool :=
  containsSub "in thousands".data (lowerL text.data)

/-- Claim-side predicate: the lowered document text contains `in millions`. -/
def mentionsMillions (text : String) : Bool :=
  containsSub "in millions".data (lowerL text.data)

/-- Scenario document without a scale note (spec §8 scenario A). -/
def scenarioDocA : String := "Total Revenue  $1,000,000\nNet Income  (50,000)"

/-- Scenario document with the thousands note (spec §8 scenario B). -/
def scenarioDocB : String :=
  "amounts in thousands\nTotal Revenue  $1,000,000\nNet Income  (50,000)"

theorem finGet_dictInsert_self (d : List (String × ℚ)) (k : String) (v : ℚ) :
    finGet (dictInsert d k v) k = some v := by
  induction d with
  | nil => simp [dictInsert, finGet]
  | cons hd tl ih =>
    obtain ⟨k', v'⟩ := hd
    by_cases h : k' == k
    · simp [dictInsert, h, finGet]
    · simp only [dictInsert, h, if_false, Bool.false_eq_true]
      simpa [finGet, List.find?, h] using ih

theorem finGet_dictInsert_ne (d : List (String × ℚ)) (k k' : String) (v : ℚ)
    (h : k' ≠ k) : finGet (dictInsert d k v) k' = finGet d k' := by
  induction d with
  | nil =>
    have hkk : (k == k') = false := beq_eq_false_iff_ne.2 (Ne.symm h)
    simp [dictInsert, finGet, List.find?, hkk]
  | cons hd tl ih =>
    obtain ⟨k0, v0⟩ := hd
    by_cases h0 : k0 == k
    · have : ¬(k0 == k') := by
        simp only [beq_iff_eq] at h0 ⊢
        exact fun hc => h (hc ▸ h0)
      simp [dictInsert, h0, finGet, List.find?, this]
    · by_cases h1 : k0 == k'
      · simp [dictInsert, h0, finGet, List.find?, h1]
      · simp only [dictInsert, h0, if_false, Bool.false_eq_true]
        simpa [finGet, List.find?, h1] using ih

theorem mem_keys_dictInsert (d : List (String × ℚ)) (k : String) (v : ℚ) :
    k ∈ (dictInsert d k v).map Prod.fst := by
  induction d with
  | nil => simp [dictInsert]
  | cons hd tl ih =>
    obtain ⟨k0, v0⟩ := hd
    by_cases h0 : k0 == k
    · simp only [beq_iff_eq] at h0
      simp [dictInsert, h0]
    · simpa [dictInsert, h0] using Or.inr ih

theorem keys_dictInsert (d : List (String × ℚ)) (k : String) (v : ℚ) :
    (dictInsert d k v).map Prod.fst =
      if k ∈ d.map Prod.fst then d.map Prod.fst else d.map Prod.fst ++ [k] := by
  induction d with
  | nil => simp [dictInsert]
  | cons hd tl ih =>
    obtain ⟨k0, v0⟩ := hd
    by_cases h0 : k0 == k
    · simp only [beq_iff_eq] at h0
      simp [dictInsert, h0]
    · simp only [beq_iff_eq] at h0
      have h0' : ¬ k = k0 := fun hc => h0 hc.symm
      by_cases hm : k ∈ tl.map Prod.fst
      · simp [dictInsert, h0, ih, hm, h0']
      · simp [dictInsert, h0, ih, hm, h0']

theorem foldPhrases_finGet (nums : List (List Char)) (scale : ℚ) (low : List Char)
    (k : String) (phs : List String) :
    ∀ res : List (String × ℚ),
      finGet (phs.foldl (fun r ph => applyPhrase nums scale low r k ph) res) k =
        (if phs.any (fun ph => containsSub ph.data low) then tokenValue scale nums
         else none).or (finGet res k) := by
  induction phs with
  | nil => intro res; simp [Option.none_or]
  | cons ph rest ih =>
    intro res
    rw [List.foldl_cons, ih]
    by_cases hc : containsSub ph.data low = true
    · cases hv : tokenValue scale nums with
      | none => simp [applyPhrase, hc, hv]
      | some v =>
        simp only [applyPhrase, hc, if_true, hv, finGet_dictInsert_self, List.any_cons]
        by_cases ha : rest.any (fun ph => containsSub ph.data low) = true <;>
          simp [ha, hc, Option.or]
    · simp [applyPhrase, hc, List.any_cons]

theorem foldPhrases_finGet_ne (nums : List (List Char)) (scale : ℚ) (low : List Char)
    (k k' : String) (hne : k' ≠ k) (phs : List String) :
    ∀ res : List (String × ℚ),
      finGet (phs.foldl (fun r ph => applyPhrase nums scale low r k ph) res) k' =
        finGet res k' := by
  induction phs with
  | nil => intro res; rfl
  | cons ph rest ih =>
    intro res
    rw [List.foldl_cons, ih]
    by_cases hc : containsSub ph.data low = true
    · cases hv : tokenValue scale nums with
      | none => simp [applyPhrase, hc, hv]
      | some v => simp [applyPhrase, hc, hv, finGet_dictInsert_ne _ _ _ _ hne]
    · simp [applyPhrase, hc]

theorem foldPhrases_keys (nums : List (List Char)) (scale : ℚ) (low : List Char)
    (k : String) (phs : List String) :
    ∀ res : List (String × ℚ),
      (phs.foldl (fun r ph => applyPhrase nums scale low r k ph) res).map Prod.fst =
        if (if phs.any (fun ph => containsSub ph.data low) then tokenValue scale nums
            else none).isSome = true ∧ k ∉ res.map Prod.fst
        then res.map Prod.fst ++ [k] else res.map Prod.fst := by
  induction phs with
  | nil => intro res; simp
  | cons ph rest ih =>
    intro res
    rw [List.foldl_cons, ih]
    by_cases hc : containsSub ph.data low = true
    · cases hv : tokenValue scale nums with
      | none => simp [applyPhrase, hc, hv]
      | some v =>
        simp only [applyPhrase, hc, if_true, hv, List.any_cons]
        have hmem := mem_keys_dictInsert res k v
        rw [keys_dictInsert]
        by_cases hm : k ∈ res.map Prod.fst <;> simp [hm, hmem, hc]
    · have hc' : containsSub ph.data low = false := by
        cases hb : containsSub ph.data low
        · rfl
        · exact absurd hb hc
      have hap : applyPhrase nums scale low res k ph = res := by simp [applyPhrase, hc']
      rw [hap, List.any_cons, hc', Bool.false_or]

theorem foldAliases_finGet_notMem (nums : List (List Char)) (scale : ℚ) (low : List Char) :
    ∀ (al : List (String × List String)) (res : List (String × ℚ)) (k : String),
      k ∉ al.map Prod.fst →
      finGet (al.foldl
        (fun r kp => kp.2.foldl (fun r2 ph => applyPhrase nums scale low r2 kp.1 ph) r) res) k =
        finGet res k := by
  intro al
  induction al with
  | nil => intro res k _; rfl
  | cons hd tl ih =>
    intro res k hk
    obtain ⟨k0, ph0⟩ := hd
    simp only [List.map_cons, List.mem_cons] at hk
    push_neg at hk
    rw [List.foldl_cons, ih _ _ hk.2]
    exact foldPhrases_finGet_ne nums scale low k0 k hk.1 ph0 res

theorem foldAliases_finGet (nums : List (List Char)) (scale : ℚ) (low : List Char) :
    ∀ (al : List (String × List String)) (res : List (String × ℚ)) (k : String)
      (phrases : List String), (al.map Prod.fst).Nodup → (k, phrases) ∈ al →
      finGet (al.foldl
        (fun r kp => kp.2.foldl (fun r2 ph => applyPhrase nums scale low r2 kp.1 ph) r) res) k =
        (if phrases.any (fun ph => containsSub ph.data low) then tokenValue scale nums
         else none).or (finGet res k) := by
  intro al
  induction al with
  | nil => intro res k phrases _ hk; exact absurd hk (List.not_mem_nil _)
  | cons hd tl ih =>
    intro res k phrases hnd hk
    obtain ⟨k0, ph0⟩ := hd
    simp only [List.map_cons, List.nodup_cons] at hnd
    rcases List.mem_cons.1 hk with heq | hmem
    · obtain ⟨hk0, hph0⟩ := Prod.mk.injEq .. ▸ heq
      subst hk0; subst hph0
      rw [List.foldl_cons,
        foldAliases_finGet_notMem nums scale low tl _ k hnd.1]
      exact foldPhrases_finGet nums scale low k phrases res
    · have hkk0 : k ≠ k0 := by
        intro hc
        exact hnd.1 (hc ▸ List.mem_map.2 ⟨(k, phrases), hmem, rfl⟩)
      rw [List.foldl_cons, ih _ _ _ hnd.2 hmem,
        foldPhrases_finGet_ne nums scale low k0 k hkk0 ph0 res]

theorem processLine_finGet (scale : ℚ) (res : List (String × ℚ)) (ln : List Char)
    (k : String) (phrases : List String) (hk : (k, phrases) ∈ ALIASES) :
    finGet (processLine scale res ln) k = (lineContrib scale phrases ln).or (finGet res k) := by
  have hnd : (ALIASES.map Prod.fst).Nodup := by decide
  show finGet (ALIASES.foldl
      (fun r kp => kp.2.foldl
        (fun r2 ph => applyPhrase (findall ln) scale (lowerL ln) r2 kp.1 ph) r) res) k = _
  rw [foldAliases_finGet (findall ln) scale (lowerL ln) ALIASES res k phrases hnd hk]
  rfl

theorem foldLines_finGet (scale : ℚ) (k : String) (phrases : List String)
    (hk : (k, phrases) ∈ ALIASES) :
    ∀ (lns : List (List Char)) (res : List (String × ℚ)),
      finGet (lns.foldl (processLine scale) res) k =
        ((lns.filterMap (lineContrib scale phrases)).getLast?).or (finGet res k) := by
  intro lns
  induction lns with
  | nil => intro res; simp [Option.none_or]
  | cons ln rest ih =>
    intro res
    rw [List.foldl_cons, ih, processLine_finGet scale res ln k phrases hk]
    cases hc : lineContrib scale phrases ln with
    | none => simp [List.filterMap_cons, hc]
    | some v =>
      simp only [List.filterMap_cons, hc]
      cases hrest : rest.filterMap (lineContrib scale phrases) with
      | nil => simp [hrest, Option.or]
      | cons w ws =>
        rw [List.getLast?_cons_cons]
        have hex : ∃ u, (w :: ws).getLast? = some u := by
          cases hgl : (w :: ws).getLast? with
          | none =>
            exact absurd (List.getLast?_isSome.2 (List.cons_ne_nil w ws)) (by simp [hgl])
          | some u => exact ⟨u, rfl⟩
        obtain ⟨u, hu⟩ := hex
        rw [hu]
        rfl

theorem foldAliases_keys_sublist (nums : List (List Char)) (scale : ℚ) (low : List Char) :
    ∀ (al : List (String × List String)) (res : List (String × ℚ)),
      (al.map Prod.fst).Nodup →
      (∀ k ∈ al.map Prod.fst, k ∉ res.map Prod.fst) →
      ∃ t, (al.foldl
          (fun r kp => kp.2.foldl (fun r2 ph => applyPhrase nums scale low r2 kp.1 ph) r)
          res).map Prod.fst = res.map Prod.fst ++ t ∧
        t.Sublist (al.map Prod.fst) := by
  intro al
  induction al with
  | nil => intro res _ _; exact ⟨[], by simp, List.nil_sublist _⟩
  | cons hd tl ih =>
    intro res hnd hdisj
    obtain ⟨k0, ph0⟩ := hd
    simp only [List.map_cons, List.nodup_cons] at hnd
    simp only [List.foldl_cons]
    have hkeys := foldPhrases_keys nums scale low k0 ph0 res
    by_cases hcond :
      (if ph0.any (fun ph => containsSub ph.data low) then tokenValue scale nums
       else none).isSome = true ∧ k0 ∉ res.map Prod.fst
    · have hres'keys :
          (ph0.foldl (fun r ph => applyPhrase nums scale low r k0 ph) res).map Prod.fst =
            res.map Prod.fst ++ [k0] := by rw [hkeys, if_pos hcond]
      have hdisj' : ∀ k ∈ tl.map Prod.fst,
          k ∉ (ph0.foldl (fun r ph => applyPhrase nums scale low r k0 ph) res).map Prod.fst := by
        intro k hk
        rw [hres'keys]
        simp only [List.mem_append, List.mem_singleton]
        push_neg
        exact ⟨hdisj k (List.mem_cons_of_mem _ hk), fun hc => hnd.1 (hc ▸ hk)⟩
      obtain ⟨t1, ht1eq, ht1sub⟩ := ih _ hnd.2 hdisj'
      refine ⟨k0 :: t1, ?_, ht1sub.cons₂ k0⟩
      rw [ht1eq, hres'keys, List.append_assoc]
      rfl
    · have hres'keys :
          (ph0.foldl (fun r ph => applyPhrase nums scale low r k0 ph) res).map Prod.fst =
            res.map Prod.fst := by rw [hkeys, if_neg hcond]
      have hdisj' : ∀ k ∈ tl.map Prod.fst,
          k ∉ (ph0.foldl (fun r ph => applyPhrase nums scale low r k0 ph) res).map Prod.fst := by
        intro k hk
        rw [hres'keys]
        exact hdisj k (List.mem_cons_of_mem _ hk)
      obtain ⟨t1, ht1eq, ht1sub⟩ := ih _ hnd.2 hdisj'
      exact ⟨t1, by rw [ht1eq, hres'keys], ht1sub.cons k0⟩

theorem processLine_keys_sublist (scale : ℚ) (ln : List Char) :
    ((processLine scale [] ln).map Prod.fst).Sublist (ALIASES.map Prod.fst) := by
  have hnd : (ALIASES.map Prod.fst).Nodup := by decide
  obtain ⟨t, hteq, htsub⟩ :=
    foldAliases_keys_sublist (findall ln) scale (lowerL ln) ALIASES [] hnd (by simp)
  show ((ALIASES.foldl
      (fun r kp => kp.2.foldl
        (fun r2 ph => applyPhrase (findall ln) scale (lowerL ln) r2 kp.1 ph) r)
      []).map Prod.fst).Sublist (ALIASES.map Prod.fst)
  rw [hteq]
  simpa using htsub

theorem containsSub_iff (n : List Char) : ∀ h : List Char, containsSub n h = true ↔ n <:+: h := by
  intro h
  induction h with
  | nil => simp [containsSub, List.isEmpty_iff, List.infix_nil]
  | cons c rest ih =>
    simp [containsSub, List.isPrefixOf_iff_prefix, ih, List.infix_cons_iff, Bool.or_eq_true]

theorem parseNumberStr_of_core_none {s : String} (h : parseNumberCore s = none)
    (scale : ℚ) : parseNumberStr s scale = none := by simp [parseNumberStr, h]

/-- C3: `parse_number_str` never raises (it is total by construction), and for
every scale the sentinel tokens — the em-dash, a lone hyphen, `N/A` in every
letter casing (with and without the slash), and the empty string — as well as
malformed tokens yield `none` (absent), never a default of zero. -/
theorem C3_sentinels_yield_absent (scale : ℚ) :
    parseNumberStr "" scale = none ∧ parseNumberStr "—" scale = none ∧
    parseNumberStr "-" scale = none ∧ parseNumberStr "N/A" scale = none ∧
    parseNumberStr "n/a" scale = none ∧ parseNumberStr "N/a" scale = none ∧
    parseNumberStr "n/A" scale = none ∧ parseNumberStr "NA" scale = none ∧
    parseNumberStr "na" scale = none ∧ parseNumberStr "Na" scale = none ∧
    parseNumberStr "nA" scale = none ∧ parseNumberStr "abc" scale = none ∧
    parseNumberStr "1.2.3" scale = none ∧ parseNumberStr "$" scale = none ∧
    parseNumberStr "--5" scale = none :=
  ⟨parseNumberStr_of_core_none (by decide) scale, parseNumberStr_of_core_none (by decide) scale,
   parseNumberStr_of_core_none (by decide) scale, parseNumberStr_of_core_none (by decide) scale,
   parseNumberStr_of_core_none (by decide) scale, parseNumberStr_of_core_none (by decide) scale,
   parseNumberStr_of_core_none (by decide) scale, parseNumberStr_of_core_none (by decide) scale,
   parseNumberStr_of_core_none (by decide) scale, parseNumberStr_of_core_none (by decide) scale,
   parseNumberStr_of_core_none (by decide) scale, parseNumberStr_of_core_none (by decide) scale,
   parseNumberStr_of_core_none (by decide) scale, parseNumberStr_of_core_none (by decide) scale,
   parseNumberStr_of_core_none (by decide) scale⟩

/-- C4: scaling is linear and applied after sign resolution: for every token
`t` and every scale `s` (in particular `s ∈ {1, 1000, 1000000}`),
`parse_number_str(t, s)` equals `parse_number_str(t, 1)` multiplied by `s`,
with absent mapped to absent. -/
theorem C4_scale_linear (t : String) (s : ℚ) :
    parseNumberStr t s = (parseNumberStr t 1).map (fun v => v * s) := by
  cases h : parseNumberCore t <;> simp [parseNumberStr, h, mul_one]

/-- C6: the shared safe-division primitive never raises (total by
construction) and returns unavailable exactly when the numerator is absent,
the denominator is absent, or the denominator is exactly zero; otherwise it
returns the quotient. -/
theorem C6_safeDiv_spec (a b : Option ℚ) :
    (safeDiv a b = none ↔ a = none ∨ b = none ∨ b = some 0) ∧
    (∀ x y : ℚ, a = some x → b = some y → y ≠ 0 → safeDiv a b = some (x / y)) := by
  constructor
  · cases a <;> cases b <;> simp [safeDiv]
  · intro x y hx hy hyne
    subst hx; subst hy
    simp [safeDiv, hyne]

/-- Witness for C6 at `a = some 6`, `b = some 3`. -/
theorem C6_witness : safeDiv (some 6) (some 3) = some (6 / 3) :=
  (C6_safeDiv_spec (some 6) (some 3)).2 6 3 rfl rfl (by norm_num)

/-- C7: the liquidity-concern flag is produced iff `current_ratio` is
available and strictly below 1, for every extracted mapping `fin` and every
ratio set: its presence does not depend on the inputs of the other three
rules (the right-hand side mentions only `current_ratio`). -/
theorem C7_liquidity_flag_iff (fin : List (String × ℚ)) (ratios : RatioSet) :
    liquidityFlag ∈ flagAnomalies fin ratios ↔
      ∃ v, ratios.current_ratio = some v ∧ v < 1 := by
  have h12 : liquidityFlag ≠ leverageFlag := by decide
  have h13 : liquidityFlag ≠ lossFlag := by decide
  have h14 : liquidityFlag ≠ negCashFlag := by decide
  unfold flagAnomalies
  rcases hcr : ratios.current_ratio with _ | v <;>
    rcases hde : ratios.debt_to_equity with _ | w <;>
      rcases hni : finGet fin "Net Income" with _ | n <;>
        rcases hcc : finGet fin "Cash and Equivalents" with _ | c <;>
          simp [h12, h13, h14]

/-- Witness for C7: a ratio set with `current_ratio = 1/2` produces the
liquidity flag. -/
theorem C7_witness :
    liquidityFlag ∈ flagAnomalies []
      (RatioSet.mk none none none (some (1 / 2)) none none none) :=
  (C7_liquidity_flag_iff [] (RatioSet.mk none none none (some (1 / 2)) none none none)).mpr
    ⟨1 / 2, rfl, by norm_num⟩

/-- C5: `detect_scale` returns 1000 whenever the text contains a thousands
disclosure phrase (case-insensitively), else 1000000 when it contains a
millions phrase, else 1; in particular when both phrases appear the result is
1000 (thousands takes precedence — the first conjunct applies regardless of
the millions phrase). -/
theorem C5_detectScale_spec (text : String) :
    (mentionsThousands text = true → detectScale text = 1000) ∧
    (mentionsThousands text = false → mentionsMillions text = true →
      detectScale text = 1000000) ∧
    (mentionsThousands text = false → mentionsMillions text = false →
      detectScale text = 1) := by
  have habs : ∀ p q : List Char, containsSub p q = true →
      containsSub q (lowerL text.data) = true → containsSub p (lowerL text.data) = true := by
    intro p q hpq hq
    rw [containsSub_iff] at hpq hq ⊢
    exact hpq.trans hq
  refine ⟨?_, ?_, ?_⟩
  · intro h
    unfold mentionsThousands at h
    simp [detectScale, h]
  · intro hth hm
    unfold mentionsThousands at hth
    unfold mentionsMillions at hm
    have h2 : containsSub "(in thousands".data (lowerL text.data) = false := by
      cases hb : containsSub "(in thousands".data (lowerL text.data)
      · rfl
      · rw [habs _ _ (by decide) hb] at hth; cases hth
    have h3 : containsSub "amounts in thousands".data (lowerL text.data) = false := by
      cases hb : containsSub "amounts in thousands".data (lowerL text.data)
      · rfl
      · rw [habs _ _ (by decide) hb] at hth; cases hth
    simp [detectScale, hth, h2, h3, hm]
  · intro hth hm
    unfold mentionsThousands at hth
    unfold mentionsMillions at hm
    have h2 : containsSub "(in thousands".data (lowerL text.data) = false := by
      cases hb : containsSub "(in thousands".data (lowerL text.data)
      · rfl
      · rw [habs _ _ (by decide) hb] at hth; cases hth
    have h3 : containsSub "amounts in thousands".data (lowerL text.data) = false := by
      cases hb : containsSub "amounts in thousands".data (lowerL text.data)
      · rfl
      · rw [habs _ _ (by decide) hb] at hth; cases hth
    have h5 : containsSub "(in millions".data (lowerL text.data) = false := by
      cases hb : containsSub "(in millions".data (lowerL text.data)
      · rfl
      · rw [habs _ _ (by decide) hb] at hm; cases hm
    have h6 : containsSub "amounts in millions".data (lowerL text.data) = false := by
      cases hb : containsSub "amounts in millions".data (lowerL text.data)
      · rfl
      · rw [habs _ _ (by decide) hb] at hm; cases hm
    simp [detectScale, hth, h2, h3, hm, h5, h6]

/-- Witness for C5: a text containing both phrases yields 1000. -/
theorem C5_witness : detectScale "Amounts In Thousands and In Millions" = 1000 :=
  (C5_detectScale_spec "Amounts In Thousands and In Millions").1 (by decide)

unseal Rat.mul Rat.inv Rat.add Rat.sub in
/-- C1 counterexample: for `fin = {Gross Profit: 0, Revenue: 100}` the claim
says `gross_margin = 0/100 = 0`, but the code's `or`-fallback treats the
present-but-zero Gross Profit as falsy, Cost of Goods Sold is absent, and the
result is unavailable. -/
theorem C1_counterexample :
    (computeRatios [("Gross Profit", 0), ("Revenue", 100)]).gross_margin = none ∧
    (computeRatios [("Gross Profit", 0), ("Revenue", 100)]).gross_margin ≠ some (0 / 100) := by
  decide

/-- C1 (amended): `gross_margin` equals `GrossProfit / Revenue` only when the
extracted Gross Profit is present and nonzero (unavailable when Revenue is
absent or zero); when Gross Profit is absent **or zero** the fallback
`(Revenue − CostOfGoodsSold) / Revenue` is used when both are present, and
the result is unavailable when Cost of Goods Sold is absent. -/
theorem C1_gross_margin_spec (fin : List (String × ℚ)) :
    (∀ g r : ℚ, finGet fin "Gross Profit" = some g → g ≠ 0 →
      finGet fin "Revenue" = some r → r ≠ 0 →
      (computeRatios fin).gross_margin = some (g / r)) ∧
    (∀ r c : ℚ, (finGet fin "Gross Profit" = none ∨ finGet fin "Gross Profit" = some 0) →
      finGet fin "Revenue" = some r → r ≠ 0 →
      finGet fin "Cost of Goods Sold" = some c →
      (computeRatios fin).gross_margin = some ((r - c) / r)) ∧
    ((finGet fin "Gross Profit" = none ∨ finGet fin "Gross Profit" = some 0) →
      finGet fin "Cost of Goods Sold" = none →
      (computeRatios fin).gross_margin = none) ∧
    ((finGet fin "Revenue" = none ∨ finGet fin "Revenue" = some 0) →
      (computeRatios fin).gross_margin = none) := by
  have hgm : (computeRatios fin).gross_margin =
      safeDiv (pyOr (finGet fin "Gross Profit") (cogsFallback fin))
        (finGet fin "Revenue") := rfl
  refine ⟨?_, ?_, ?_, ?_⟩
  · intro g r hg hgne hr hrne
    rw [hgm, hg, hr]
    simp [pyOr, safeDiv, hgne, hrne]
  · intro r c hgp hr hrne hc
    have hfb : cogsFallback fin = some (r - c) := by simp [cogsFallback, hr, hc]
    rcases hgp with hgp | hgp <;> rw [hgm, hgp, hr, hfb] <;> simp [pyOr, safeDiv, hrne]
  · intro hgp hc
    have hfb : cogsFallback fin = none := by
      cases hrev : finGet fin "Revenue" <;> simp [cogsFallback, hrev, hc]
    rcases hgp with hgp | hgp <;> rw [hgm, hgp, hfb] <;>
      cases hrev : finGet fin "Revenue" <;> simp [pyOr, safeDiv]
  · intro hrev
    rcases hrev with hrev | hrev <;> rw [hgm, hrev] <;>
      cases hgp : pyOr (finGet fin "Gross Profit") (cogsFallback fin) <;> simp [safeDiv]

/-- Witness for C1 (amended): Gross Profit 40 with Revenue 100 gives
`gross_margin = 40/100`. -/
theorem C1_witness :
    (computeRatios [("Gross Profit", 40), ("Revenue", 100)]).gross_margin =
      some (40 / 100) :=
  (C1_gross_margin_spec [("Gross Profit", 40), ("Revenue", 100)]).1 40 100 rfl
    (by norm_num) rfl (by norm_num)

/-- C8: for every document, scale, and canonical item of the alias table, the
extracted value is the contribution of the last line (in document order)
that matches one of the item's phrases and whose rightmost `number_re` token
normalises successfully; lines whose token fails to normalise (or that have
no token) contribute nothing and never overwrite a previously stored
value. -/
theorem C8_last_successful_match (text : String) (scale : ℚ) (k : String)
    (phrases : List String) (hk : (k, phrases) ∈ ALIASES) :
    finGet (findByAliases text scale) k =
      ((linesOf text).filterMap (lineContrib scale phrases)).getLast? := by
  show finGet ((linesOf text).foldl (processLine scale) []) k = _
  rw [foldLines_finGet scale k phrases hk (linesOf text) []]
  have hnil : finGet ([] : List (String × ℚ)) k = none := rfl
  rw [hnil, Option.or_none]

set_option maxRecDepth 100000 in
unseal Rat.mul Rat.inv Rat.add Rat.sub in
/-- Witness for C8: four lines match Revenue; the second and fourth have a
token (a bare comma) that fails to normalise and contribute nothing, so the
third line's 30 wins over the first line's 10. -/
theorem C8_witness :
    finGet (findByAliases "Revenue 10\nRevenue ,\nRevenue 30\nRevenue ," 1) "Revenue" =
      some 30 := by
  rw [C8_last_successful_match "Revenue 10\nRevenue ,\nRevenue 30\nRevenue ," 1 "Revenue"
    ["revenue", "net sales", "sales", "turnover", "total revenue"] (by decide)]
  decide

set_option maxRecDepth 100000 in
unseal Rat.mul Rat.inv Rat.add Rat.sub in
/-- C10: alias matching is substring matching on the lowered line, so the
single-line document `Current Liabilities 100` populates both Total
Liabilities (via the `liabilities` alias) and Current Liabilities with 100,
and `Current Assets 80` likewise populates Total Assets and Current Assets;
in general every canonical item a single line populates receives the same
value, namely the normalised rightmost token of that line. -/
theorem C10_substring_aliasing :
    findByAliases "Current Liabilities 100" 1 =
      [("Total Liabilities", 100), ("Current Liabilities", 100)] ∧
    findByAliases "Current Assets 80" 1 =
      [("Total Assets", 80), ("Current Assets", 80)] ∧
    ∀ (ln : List Char) (scale : ℚ) (k : String) (phrases : List String) (v : ℚ),
      (k, phrases) ∈ ALIASES → finGet (processLine scale [] ln) k = some v →
      tokenValue scale (findall ln) = some v := by
  refine ⟨by decide, by decide, ?_⟩
  intro ln scale k phrases v hk hv
  rw [processLine_finGet scale [] ln k phrases hk] at hv
  have hnil : finGet ([] : List (String × ℚ)) k = none := rfl
  rw [hnil, Option.or_none] at hv
  unfold lineContrib at hv
  by_cases hc : phrases.any (fun ph => containsSub ph.data (lowerL ln)) = true
  · rw [if_pos hc] at hv
    exact hv
  · rw [if_neg hc] at hv
    cases hv

set_option maxRecDepth 100000 in
unseal Rat.mul Rat.inv Rat.add Rat.sub in
/-- Witness for C10: on the line `Current Liabilities 100`, Total Liabilities
receives exactly the normalised rightmost token. -/
theorem C10_witness :
    tokenValue 1 (findall "Current Liabilities 100".data) = some 100 :=
  C10_substring_aliasing.2.2 "Current Liabilities 100".data 1 "Total Liabilities"
    ["total liabilities", "liabilities"] 100 (by decide) (by decide)

set_option maxRecDepth 100000 in
unseal Rat.mul Rat.inv Rat.add Rat.sub in
/-- C2 counterexample: in the document `Net Income 50\nRevenue 100` both
items are extracted, Revenue precedes Net Income in the alias table, yet Net
Income precedes Revenue in the output mapping — the output follows insertion
(first-match) order across lines, not alias-table order. -/
theorem C2_counterexample :
    (findByAliases "Net Income 50\nRevenue 100" 1).map Prod.fst =
      ["Net Income", "Revenue"] ∧
    (ALIASES.map Prod.fst).take 5 =
      ["Revenue", "Cost of Goods Sold", "Gross Profit", "Operating Income", "Net Income"] := by
  decide

/-- C2 (amended): for a document consisting of a single line, the output
mapping's key order does follow the alias table: the key sequence is a
subsequence of the alias-table key sequence, so of any two items extracted
from that line the one earlier in the alias table comes first.  (Across
several lines the order is insertion order of the first successful match, as
the counterexample shows.) -/
theorem C2_single_line_alias_order (text : String) (scale : ℚ) (l : List Char)
    (h : linesOf text = [l]) :
    ((findByAliases text scale).map Prod.fst).Sublist (ALIASES.map Prod.fst) := by
  show (((linesOf text).foldl (processLine scale) []).map Prod.fst).Sublist _
  rw [h]
  show ((processLine scale [] l).map Prod.fst).Sublist _
  exact processLine_keys_sublist scale l

set_option maxRecDepth 100000 in
unseal Rat.mul Rat.inv Rat.add Rat.sub in
/-- Witness for C2 (amended) on the single-line document
`Current Liabilities 100`. -/
theorem C2_witness :
    ((findByAliases "Current Liabilities 100" 1).map Prod.fst).Sublist
      (ALIASES.map Prod.fst) :=
  C2_single_line_alias_order "Current Liabilities 100" 1
    "Current Liabilities 100".data (by decide)

set_option maxRecDepth 1000000 in
unseal Rat.mul Rat.inv Rat.add Rat.sub in
/-- C9: on the document containing `Total Revenue  $1,000,000`,
`Net Income  (50,000)` and the phrase `amounts in thousands`, the pipeline
detects scale 1000, extracts Revenue = 1000000000 and
Net Income = -50000000, computes `net_margin = -0.05` exactly as for the
unscaled document (the scale cancels), and produces the reported-loss
flag. -/
theorem C9_end_to_end :
    detectScale scenarioDocB = 1000 ∧
    findByAliases scenarioDocB (detectScale scenarioDocB) =
      [("Revenue", 1000000000), ("Net Income", -50000000)] ∧
    (computeRatios (findByAliases scenarioDocB (detectScale scenarioDocB))).net_margin =
      some (-(5 / 100)) ∧
    detectScale scenarioDocA = 1 ∧
    (computeRatios (findByAliases scenarioDocA (detectScale scenarioDocA))).net_margin =
      some (-(5 / 100)) ∧
    lossFlag ∈ flagAnomalies (findByAliases scenarioDocB (detectScale scenarioDocB))
      (computeRatios (findByAliases scenarioDocB (detectScale scenarioDocB))) := by
  decide
